import Mathlib

/-!
Verification of the lifter query-engine against its specification.

This file gives a shallow embedding, in Lean 4, of the parts of the
lifter repository that the checked claims are about:

* `lifter/utils.py` — the attribute resolver `resolve_attr`, and the
  `IterableAttr` ("ScatteredView") wrapper with its `get_resolved_items`,
  `__eq__`, `__getitem__` and `_resolve_test` methods;
* `lifter/caches.py` — `Cache.get` / `Cache.set`, the `DummyCache`
  backend with its injectable clock, and the `CacheToggler`
  enable/disable scoping;
* `lifter/backends/http.py` — the `RESTStore` request pipeline
  (`build_querystring`, `parse_response`, `handle_select`,
  `handle_count`) and the `QueryStringBuilder` /
  `SimpleQueryStringBuilder` translation of a query tree into a
  multi-valued querystring.

Python values of unknown shape (dicts, objects, lists, scalars, and the
`IterableAttr` views produced during resolution) are embedded as the
mutual inductive family `RVal` / `RList` / `REntries`.  The laziness of
`IterableAttr` is kept: the `scattered` constructor stores the wrapped
collection together with the field name, and `resolveItems` embeds
`get_resolved_items`.  Exceptions are embedded as `Except` results.
Where a class needed by a claim lives outside the provided sources (the
query-tree data model of `lifter/query.py`), its data shape is modelled
from the specification and marked as such in its doc comment.
-/

namespace Lifter

/-! ## Embedded Python values (for `lifter/utils.py`) -/

mutual

/-- An embedded Python value as seen by the attribute resolver:
a dict, an object with an instance `__dict__` and class attributes,
a list, a scalar (`int`, `str`, `None`), or an `IterableAttr`
("ScatteredView") holding the wrapped collection and the field name. -/
inductive RVal : Type where
  | vint (n : Int)
  | vstr (s : String)
  | vnone
  | vdict (entries : REntries)
  | vobj (inst : REntries) (attrs : REntries)
  | vlist (elems : RList)
  | scattered (items : RList) (key : String)

/-- A list of embedded Python values. -/
inductive RList : Type where
  | nil
  | cons (head : RVal) (tail : RList)

/-- A string-keyed table of embedded Python values (a dict's storage,
or an object's attribute table). -/
inductive REntries : Type where
  | nil
  | cons (key : String) (value : RVal) (tail : REntries)

end

/-- Key lookup in a string-keyed table (Python `d[name]` /
`obj.__dict__[name]`; first binding wins, dicts bind each key once). -/
def lookupEntry : REntries → String → Option RVal
  | .nil, _ => none
  | .cons k v rest, name => if k = name then some v else lookupEntry rest name

mutual

/-- Embeds `lifter.utils.resolve_attr(obj, name)`.  Tries, in the
source's order: dict-style keyed lookup (`obj[name]`: on a dict a
missing key raises `KeyError`, which `resolve_attr` converts to a
`MissingField` at once; on an `IterableAttr` the `__getitem__` returns a
new view over the resolved items; on anything else it raises `TypeError`
and the resolver moves on), then the instance `__dict__`, then
`getattr`, then — if the record is iterable — wrapping it into an
`IterableAttr`, and otherwise fails with `MissingField(obj, name)`.
The error value carries the record and the name, as the exception
message does in the source. -/
def resolve_attr : RVal → String → Except (RVal × String) RVal
  | .vdict entries, name =>
      match lookupEntry entries name with
      | some v => .ok v
      | none => .error (.vdict entries, name)
  | .scattered items key, name =>
      .ok (.scattered (resolveItems items key) name)
  | .vobj inst attrs, name =>
      match lookupEntry inst name with
      | some v => .ok v
      | none =>
          match lookupEntry attrs name with
          | some v => .ok v
          | none => .error (.vobj inst attrs, name)
  | .vlist elems, name => .ok (.scattered elems name)
  | .vint n, name => .error (.vint n, name)
  | .vstr s, name => .error (.vstr s, name)
  | .vnone, name => .error (.vnone, name)

/-- Embeds `IterableAttr.get_resolved_items`: resolve the stored field
name against every element of the wrapped collection, in order, and
silently skip any element whose resolution raises `MissingField`. -/
def resolveItems : RList → String → RList
  | .nil, _ => .nil
  | .cons head tail, key =>
      match resolve_attr head key with
      | .ok v => .cons v (resolveItems tail key)
      | .error _ => resolveItems tail key

end

/-- Membership in an embedded list. -/
def rmem (v : RVal) : RList → Prop
  | .nil => False
  | .cons head tail => head = v ∨ rmem v tail

/-- Python's `isinstance(x, IterableAttr)` check used by
`_resolve_test`. -/
def isScattered : RVal → Bool
  | .scattered _ _ => true
  | _ => false

/-- Embeds `any(test(item) for item in l)`. -/
def ranyB (test : RVal → Bool) : RList → Bool
  | .nil => false
  | .cons head tail => test head || ranyB test tail

mutual

/-- Size measure on embedded values (used to justify termination of the
recursive `IterableAttr` operations; every value has positive size). -/
def rsize : RVal → Nat
  | .vint _ => 1
  | .vstr _ => 1
  | .vnone => 1
  | .vdict entries => 1 + rsizeE entries
  | .vobj inst attrs => 1 + rsizeE inst + rsizeE attrs
  | .vlist elems => 1 + rsizeL elems
  | .scattered items _ => 1 + rsizeL items

/-- Size of an embedded list. -/
def rsizeL : RList → Nat
  | .nil => 0
  | .cons head tail => rsize head + rsizeL tail

/-- Size of a string-keyed table. -/
def rsizeE : REntries → Nat
  | .nil => 0
  | .cons _ v tail => rsize v + rsizeE tail

end

theorem rsize_pos : ∀ v : RVal, 1 ≤ rsize v
  | .vint _ => le_refl _
  | .vstr _ => le_refl _
  | .vnone => le_refl _
  | .vdict _ => Nat.le_add_right 1 _
  | .vobj _ _ => by simp [rsize]; omega
  | .vlist _ => Nat.le_add_right 1 _
  | .scattered _ _ => Nat.le_add_right 1 _

theorem lookupEntry_rsize_le :
    ∀ (entries : REntries) (name : String) (v : RVal),
      lookupEntry entries name = some v → rsize v ≤ rsizeE entries
  | .nil, _, _, h => by simp [lookupEntry] at h
  | .cons k w rest, name, v, h => by
      by_cases hk : k = name
      · simp [lookupEntry, hk] at h
        subst h
        simp [rsizeE]
      · simp [lookupEntry, hk] at h
        have := lookupEntry_rsize_le rest name v h
        simp [rsizeE]
        omega

mutual

/-- Resolution never grows a value: a successful `resolve_attr` returns
a value no larger than the record it was resolved from. -/
theorem rsize_resolve_le :
    ∀ (v : RVal) (name : String) (w : RVal),
      resolve_attr v name = .ok w → rsize w ≤ rsize v
  | .vdict entries, name, w, h => by
      simp only [resolve_attr] at h
      cases hl : lookupEntry entries name with
      | none => rw [hl] at h; exact absurd h (by simp)
      | some u =>
          rw [hl] at h
          cases h
          have := lookupEntry_rsize_le entries name w hl
          simp [rsize]
          omega
  | .scattered items key, name, w, h => by
      simp only [resolve_attr] at h
      cases h
      have := rsizeL_resolveItems_le items key
      simp [rsize]
      omega
  | .vobj inst attrs, name, w, h => by
      simp only [resolve_attr] at h
      cases hl : lookupEntry inst name with
      | some u =>
          rw [hl] at h
          cases h
          have := lookupEntry_rsize_le inst name w hl
          simp [rsize]
          omega
      | none =>
          rw [hl] at h
          cases hl2 : lookupEntry attrs name with
          | none => rw [hl2] at h; exact absurd h (by simp)
          | some u =>
              rw [hl2] at h
              cases h
              have := lookupEntry_rsize_le attrs name w hl2
              simp [rsize]
              omega
  | .vlist elems, name, w, h => by
      simp only [resolve_attr] at h
      cases h
      simp [rsize]
  | .vint n, name, w, h => by simp [resolve_attr] at h
  | .vstr s, name, w, h => by simp [resolve_attr] at h
  | .vnone, name, w, h => by simp [resolve_attr] at h

/-- The resolved items of an `IterableAttr` are, in total, no larger
than the wrapped collection. -/
theorem rsizeL_resolveItems_le :
    ∀ (l : RList) (key : String), rsizeL (resolveItems l key) ≤ rsizeL l
  | .nil, _ => le_refl _
  | .cons head tail, key => by
      cases hr : resolve_attr head key with
      | ok v =>
          simp only [resolveItems, hr]
          have h1 := rsize_resolve_le head key v hr
          have h2 := rsizeL_resolveItems_le tail key
          simp [rsizeL]
          omega
      | error e =>
          simp only [resolveItems, hr]
          have := rsizeL_resolveItems_le tail key
          simp [rsizeL]
          omega

end

/-- A Python scalar, as used on the right-hand side of an
`IterableAttr.__eq__` test. -/
inductive ScalarV : Type where
  | sint (n : Int)
  | sstr (s : String)
  | snone

theorem dec_into_resolved (items : RList) (key : String) :
    2 * rsizeL (resolveItems items key) + 1 < 2 * rsize (RVal.scattered items key) := by
  have := rsizeL_resolveItems_le items key
  simp only [rsize]
  omega

theorem dec_head (head : RVal) (tail : RList) :
    2 * rsize head < 2 * rsizeL (RList.cons head tail) + 1 := by
  simp only [rsizeL]
  omega

theorem dec_tail (head : RVal) (tail : RList) :
    2 * rsizeL tail + 1 < 2 * rsizeL (RList.cons head tail) + 1 := by
  have := rsize_pos head
  simp only [rsizeL]
  omega

theorem dec_test_resolved (items : RList) (key : String) (first : RVal) (rest : RList)
    (h : resolveItems items key = .cons first rest) :
    2 * rsizeL (RList.cons first rest) < 2 * rsizeL items + 1 := by
  have h1 := rsizeL_resolveItems_le items key
  rw [h] at h1
  omega

theorem dec_test_nested (i : RList) (k : String) (rest : RList) :
    2 * rsizeL i + 1 < 2 * rsizeL (RList.cons (RVal.scattered i k) rest) := by
  simp only [rsizeL, rsize]
  omega

theorem dec_test_rest (i : RList) (k : String) (rest : RList) :
    2 * rsizeL rest < 2 * rsizeL (RList.cons (RVal.scattered i k) rest) := by
  simp only [rsizeL, rsize]
  omega

mutual

/-- Python equality `elem == other` between a resolved element and a
scalar comparand, as evaluated inside `other in resolved_items`: a
scalar compares by value, a dict/object/list never equals a scalar, and
an `IterableAttr` element delegates to its own `__eq__`, i.e. to
membership among its resolved items. -/
def eqToScalar (other : ScalarV) : RVal → Bool
  | .vint n => match other with | .sint m => n == m | _ => false
  | .vstr s => match other with | .sstr t => s == t | _ => false
  | .vnone => match other with | .snone => true | _ => false
  | .vdict _ => false
  | .vobj _ _ => false
  | .vlist _ => false
  | .scattered items key => anyEqScalar other (resolveItems items key)
termination_by v => 2 * rsize v
decreasing_by
  exact dec_into_resolved _ _

/-- Python membership `other in l` over resolved items: some element
compares equal to the scalar. -/
def anyEqScalar (other : ScalarV) : RList → Bool
  | .nil => false
  | .cons head tail => eqToScalar other head || anyEqScalar other tail
termination_by l => 2 * rsizeL l + 1
decreasing_by
  all_goals first
    | exact dec_head _ _
    | exact dec_tail _ _

end

/-- Embeds `IterableAttr.__eq__(self, other)` for a scalar comparand:
`other in self.get_resolved_items()`. -/
def scatteredEqScalar (items : RList) (key : String) (other : ScalarV) : Bool :=
  anyEqScalar other (resolveItems items key)

mutual

/-- Embeds `IterableAttr._resolve_test(self, test)`: an empty resolved
set applies the test to the empty list itself; if the first resolved
item is an `IterableAttr` the test fans out disjunctively over the
nested views (`none` models the `AttributeError` the source would raise
when a non-view shows up among nested views); otherwise the test holds
iff some direct resolved item satisfies it. -/
def resolveTest (test : RVal → Bool) (items : RList) (key : String) : Option Bool :=
  match h : resolveItems items key with
  | .nil => some (test (.vlist .nil))
  | .cons first rest =>
      if isScattered first then anyNestedTest test (.cons first rest)
      else some (ranyB test (.cons first rest))
termination_by 2 * rsizeL items + 1
decreasing_by
  exact dec_test_resolved _ _ _ _ (by assumption)

/-- Embeds `any([item._resolve_test(test) for item in resolved_items])`:
the whole comprehension is evaluated first, so one crashing item
(`none`) poisons the result even if another item already answered
`True`. -/
def anyNestedTest (test : RVal → Bool) : RList → Option Bool
  | .nil => some false
  | .cons (.scattered i k) rest =>
      match resolveTest test i k, anyNestedTest test rest with
      | some b, some bs => some (b || bs)
      | _, _ => none
  | .cons _ _ => none
termination_by l => 2 * rsizeL l
decreasing_by
  all_goals first
    | exact dec_test_nested _ _ _
    | exact dec_test_rest _ _ _

end

/-! ## Step decomposition of `resolve_attr` (for checking the
specified resolution order) -/

/-- Outcome of the first step of `resolve_attr`, the keyed lookup
`obj[name]`: found a value, raised `KeyError` (a mapping without that
key), or raised `TypeError` (not subscriptable by a string). -/
inductive KeyedOutcome : Type where
  | found (v : RVal)
  | keyError
  | typeError

/-- The keyed-lookup step `obj[name]`: a dict looks the key up (missing
key: `KeyError`); an `IterableAttr` answers through `__getitem__` with
a deeper view; every other embedded value raises `TypeError`. -/
def keyedStep : RVal → String → KeyedOutcome
  | .vdict entries, name =>
      match lookupEntry entries name with
      | some v => .found v
      | none => .keyError
  | .scattered items key, name => .found (.scattered (resolveItems items key) name)
  | _, _ => .typeError

/-- The second step, `obj.__dict__[name]`: only objects carry an
instance `__dict__`. -/
def instDictStep : RVal → String → Option RVal
  | .vobj inst _, name => lookupEntry inst name
  | _, _ => none

/-- The third step, `getattr(obj, name)`: an object's instance
`__dict__` first, then its class attribute table; other embedded values
expose no data attributes. -/
def getattrStep : RVal → String → Option RVal
  | .vobj inst attrs, name =>
      match lookupEntry inst name with
      | some v => some v
      | none => lookupEntry attrs name
  | _, _ => none

/-- Embeds `isinstance(obj, Iterable)` for the embedded values: dicts and
lists are iterable; plain objects and scalars are not (strings are kept
out of the iterable fragment of the model). -/
def isIterableR : RVal → Bool
  | .vdict _ => true
  | .vlist _ => true
  | _ => false

/-- The keys of a dict, as the values Python iteration over a dict
yields. -/
def entriesKeys : REntries → RList
  | .nil => .nil
  | .cons k _ tail => .cons (.vstr k) (entriesKeys tail)

/-- The collection an iterable record wraps into an `IterableAttr`
(dicts iterate over their keys). -/
def relems : RVal → RList
  | .vlist elems => elems
  | .vdict entries => entriesKeys entries
  | _ => .nil

/-! ## Cache model (`lifter/caches.py`) -/

/-- State of a `DummyCache`, the in-memory TTL cache: the configured
`default_timeout`, the `enabled` flag, the keyed storage mapping each
key to `(expires_on, value)`, and the current value of the internal —
injectable, and in the tests mocked — clock `get_now()`. -/
structure DummyCache (V : Type) where
  default_timeout : Option Int := none
  enabled : Bool := true
  data : List (String × Option Int × V) := []
  now : Int := 0

/-- Embeds `Cache.get_now()`, the cache-internal clock. -/
def get_now {V : Type} (c : DummyCache V) : Int := c.now

/-- Embeds `DummyCache._set`: computes the absolute expiry timestamp
`get_now() + timeout` at write time (`None` timeout: never expires) and
stores the pair under the key, replacing any previous entry. -/
def dummy_set {V : Type} (c : DummyCache V) (key : String) (value : V)
    (timeout : Option Int) : DummyCache V × Bool :=
  let expires_on := timeout.map (fun t => get_now c + t)
  ({ c with data := (key, expires_on, value) :: c.data.filter (fun p => p.1 ≠ key) }, true)

/-- Embeds `DummyCache._get`: a missing key raises `NotInCache`; an
entry without expiry is returned; an entry whose expiry timestamp is
strictly in the past is deleted and raises `NotInCache`; otherwise the
stored value is returned. -/
def dummy_get {V : Type} (c : DummyCache V) (key : String) :
    DummyCache V × Except Unit V :=
  match c.data.find? (fun p => p.1 = key) with
  | none => (c, .error ())
  | some (_, expires_on, value) =>
      match expires_on with
      | none => (c, .ok value)
      | some e =>
          if e < get_now c then
            ({ c with data := c.data.filter (fun p => p.1 ≠ key) }, .error ())
          else (c, .ok value)

/-- The `timeout` argument of `Cache.set`: the `NotSet` sentinel (fall
back to the configured default) or an explicit value (`None` meaning
never expire). -/
inductive TimeoutArg : Type where
  | notSet
  | given (t : Option Int)

/-- Errors surfaced by `Cache.get` when `reraise` is set. -/
inductive CacheError : Type where
  | disabledCache
  | notInCache (key : String)

/-- Embeds `Cache.set` over a `DummyCache`: a disabled cache is a no-op
returning `False` (modelled as `none`); otherwise the `NotSet` timeout
falls back to `default_timeout` and the value is stored and returned. -/
def cache_set {V : Type} (c : DummyCache V) (key : String) (value : V)
    (timeout : TimeoutArg) : DummyCache V × Option V :=
  if c.enabled then
    let t := match timeout with
      | .notSet => c.default_timeout
      | .given t => t
    ((dummy_set c key value t).1, some value)
  else (c, none)

/-- Embeds `Cache.get` over a `DummyCache`: a disabled cache returns
the default (or raises `DisabledCache` when `reraise`); an enabled
cache translates `NotInCache` into the default unless `reraise`. -/
def cache_get {V : Type} (c : DummyCache V) (key : String) (default : V)
    (reraise : Bool) : DummyCache V × Except CacheError V :=
  if c.enabled then
    match dummy_get c key with
    | (c2, .ok v) => (c2, .ok v)
    | (c2, .error _) =>
        (c2, if reraise then .error (.notInCache key) else .ok default)
  else (c, if reraise then .error .disabledCache else .ok default)

/-- Embeds `CacheToggler.__init__`: remembers the value to set and the
cache's current `enabled` flag. -/
structure CacheToggler : Type where
  new_value : Bool
  previous_value : Bool

/-- Embeds `CacheToggler(cache, new_value)`. -/
def toggler_init {V : Type} (c : DummyCache V) (new_value : Bool) : CacheToggler :=
  { new_value := new_value, previous_value := c.enabled }

/-- Embeds `CacheToggler.__enter__`: sets the cache's flag to the new value. -/
def toggler_enter {V : Type} (c : DummyCache V) (t : CacheToggler) : DummyCache V :=
  { c with enabled := t.new_value }

/-- Embeds `CacheToggler.__exit__`: restores the flag remembered at
construction. -/
def toggler_exit {V : Type} (c : DummyCache V) (t : CacheToggler) : DummyCache V :=
  { c with enabled := t.previous_value }

/-- Embeds `Cache.enable()`: a toggler that forces the cache on. -/
def cache_enable {V : Type} (c : DummyCache V) : CacheToggler := toggler_init c true

/-- Embeds `Cache.disable()`: a toggler that bypasses the cache. -/
def cache_disable {V : Type} (c : DummyCache V) : CacheToggler := toggler_init c false

/-- A single cache operation a client may run between or inside
enable/disable scopes. -/
inductive CacheOp (V : Type) : Type where
  | setOp (key : String) (value : V) (timeout : TimeoutArg)
  | getOp (key : String) (default : V) (reraise : Bool)
  | advanceClock (t : Int)

/-- Run one cache operation for its state effect. -/
def runOp {V : Type} (c : DummyCache V) : CacheOp V → DummyCache V
  | .setOp key value timeout => (cache_set c key value timeout).1
  | .getOp key default reraise => (cache_get c key default reraise).1
  | .advanceClock t => { c with now := t }

/-- A properly nested program of cache operations and
enable/disable scopes: `scope v body rest` models
`with CacheToggler(cache, v): body` followed by `rest`. -/
inductive ScopeProg (V : Type) : Type where
  | done
  | op (o : CacheOp V) (rest : ScopeProg V)
  | scope (new_value : Bool) (body : ScopeProg V) (rest : ScopeProg V)

/-- Run a nested program: entering a scope constructs the toggler and
applies `__enter__`, the body runs, `__exit__` restores the remembered
flag, and the rest of the program continues. -/
def runProg {V : Type} (c : DummyCache V) : ScopeProg V → DummyCache V
  | .done => c
  | .op o rest => runProg (runOp c o) rest
  | .scope new_value body rest =>
      let t := toggler_init c new_value
      let c1 := toggler_enter c t
      let c2 := runProg c1 body
      let c3 := toggler_exit c2 t
      runProg c3 rest

/-! ## Query tree data model (consumed by `lifter/backends/http.py`) -/

/-- Modelled from the spec: a named lookup as the querystring builder
sees it — its stable `registry_name` (checked against the support
table) and its `reference_value`, the operand's string form emitted
into the querystring.  The `Lookup` class itself lives in the
query-tree module, which is not among the provided sources. -/
structure LookupM : Type where
  registry_name : String
  reference_value : String

mutual

/-- Modelled from the spec: a query-tree node — either a leaf
(field path, lookup, operand) or an AND/OR composite over ordered
subqueries, each node carrying an `inverted` flag.  The node classes
live in the query-tree module, which is not among the provided
sources; `lifter/backends/http.py` consumes them duck-typed via
`node.lookup`, `node.operator`, `node.subqueries`, `node.path` and
`node.inverted`. -/
inductive QueryNode : Type where
  | leaf (path : String) (lookup : LookupM) (inverted : Bool)
  | composite (operator : String) (subqueries : QList) (inverted : Bool)

/-- An ordered sequence of subqueries. -/
inductive QList : Type where
  | nil
  | cons (head : QueryNode) (tail : QList)

end

/-- The `inverted` flag of a node. -/
def QueryNode.invertedFlag : QueryNode → Bool
  | .leaf _ _ inv => inv
  | .composite _ _ inv => inv

/-- Membership of a node in a subquery sequence. -/
def qmem (n : QueryNode) : QList → Prop
  | .nil => False
  | .cons head tail => head = n ∨ qmem n tail

/-- Relation stating `s` occurs as a subtree of `t` (every node the translation walk can
visit). -/
inductive Subnode : QueryNode → QueryNode → Prop where
  | refl (n : QueryNode) : Subnode n n
  | comp {x s : QueryNode} {op : String} {subs : QList} {inv : Bool} :
      qmem s subs → Subnode x s → Subnode x (.composite op subs inv)

/-- A backend's capability table: the lookups and operators it can
express. -/
structure SupportTable : Type where
  lookups : List String
  operators : List String

/-- Embeds `SimpleQueryStringBuilder.support_table`: only the `eq` lookup and
the implicit `AND` operator. -/
def simple_support_table : SupportTable :=
  { lookups := ["eq"], operators := ["AND"] }

/-- Errors raised by the remote backend: `UnsupportedQuery` (carrying a
message and the offending node), `BadQuery` (4xx), `StoreError` (5xx),
and the `AttributeError` the source would raise because no
`get_orderings_as_dict` is defined for the shipped builders. -/
inductive RemoteError : Type where
  | unsupportedQuery (msg : String) (node : QueryNode)
  | badQuery (msg : String)
  | storeError (msg : String)
  | missingOrderingsSupport

/-- Embeds `QueryStringBuilder.check_support`: an inverted node while
`NOT` is unsupported, a leaf whose lookup registry name is unsupported,
or a composite whose operator is unsupported, each raise
`UnsupportedQuery` carrying the offending node. -/
def check_support (st : SupportTable) (node : QueryNode) : Except RemoteError Unit :=
  if node.invertedFlag ∧ ¬ st.operators.contains "NOT" then
    .error (.unsupportedQuery "NOT operator not supported" node)
  else
    match node with
    | .leaf _ lookup _ =>
        if ¬ st.lookups.contains lookup.registry_name then
          .error (.unsupportedQuery (lookup.registry_name ++ " lookup not supported") node)
        else .ok ()
    | .composite operator _ _ =>
        if ¬ st.operators.contains operator then
          .error (.unsupportedQuery (operator ++ " operator not supported") node)
        else .ok ()

mutual

/-- Embeds `SimpleQueryStringBuilder.iterate`, eagerly: check support
at the node, then either recurse over the subqueries in order (the
first raised error propagating) or, at a leaf, yield the pair
`(str(node.path), node.lookup.reference_value)`. -/
def iterateNode (st : SupportTable) : QueryNode → Except RemoteError (List (String × String))
  | .leaf path lookup inv =>
      match check_support st (.leaf path lookup inv) with
      | .error e => .error e
      | .ok _ => .ok [(path, lookup.reference_value)]
  | .composite op subs inv =>
      match check_support st (.composite op subs inv) with
      | .error e => .error e
      | .ok _ => iterateSubs st subs

/-- Concatenation, in order, of the pairs yielded for each subquery. -/
def iterateSubs (st : SupportTable) : QList → Except RemoteError (List (String × String))
  | .nil => .ok []
  | .cons head tail =>
      match iterateNode st head with
      | .error e => .error e
      | .ok l =>
          match iterateSubs st tail with
          | .error e => .error e
          | .ok l2 => .ok (l ++ l2)

end

/-- One step of `d.setdefault(key, []).append(value)`: append the value
to the key's list, creating the key at the end on first sight. -/
def addPair (d : List (String × List String)) (kv : String × String) :
    List (String × List String) :=
  if d.any (fun p => p.1 = kv.1) then
    d.map (fun p => if p.1 = kv.1 then (p.1, p.2 ++ [kv.2]) else p)
  else d ++ [(kv.1, [kv.2])]

/-- Embeds `SimpleQueryStringBuilder.get_filters_as_dict`: fold the
yielded `(key, value)` pairs into a multi-valued mapping. -/
def get_filters_as_dict (st : SupportTable) (node : QueryNode) :
    Except RemoteError (List (String × List String)) :=
  match iterateNode st node with
  | .error e => .error e
  | .ok pairs => .ok (pairs.foldl addPair [])

/-- Reading a multi-valued mapping: the value list bound to a key, or
the empty list when the key is absent. -/
def dictGet : List (String × List String) → String → List String
  | [], _ => []
  | (k1, l) :: rest, k => if k1 = k then l else dictGet rest k

/-- Embeds `QueryStringBuilder.build(node, orderings)`: start from an
empty mapping, merge the filters when a node is given, then merge the
orderings when any are given — which calls the undefined
`get_orderings_as_dict` and so raises `AttributeError` in the shipped
builders. -/
def builder_build (st : SupportTable) (node : Option QueryNode)
    (orderings : List String) : Except RemoteError (List (String × List String)) :=
  match node with
  | none =>
      match orderings with
      | [] => .ok []
      | _ => .error .missingOrderingsSupport
  | some n =>
      match get_filters_as_dict st n with
      | .error e => .error e
      | .ok d =>
          match orderings with
          | [] => .ok d
          | _ => .error .missingOrderingsSupport

/-- Modelled from the spec: the full request descriptor — optional
filter tree, orderings, action kind.  The `Query` class lives in the
query-tree module, which is not among the provided sources;
`lifter/backends/http.py` consumes `query.filters`, `query.orderings`
and `query.clone(action=...)`. -/
structure QueryM : Type where
  filters : Option QueryNode
  orderings : List String
  action : String

/-- Modelled from the spec: `query.clone(action=a)` returns the same
query with the action replaced. -/
def QueryM.clone (q : QueryM) (action : String) : QueryM :=
  { q with action := action }

/-- Embeds `RESTStore.build_querystring`: an empty mapping, merged with
the builder's output only when the query has a (truthy) filter tree —
with no filters, the orderings are never consulted. -/
def build_querystring (q : QueryM) : Except RemoteError (List (String × List String)) :=
  match q.filters with
  | none => .ok []
  | some f => builder_build simple_support_table (some f) q.orderings

/-! ## REST store pipeline (`lifter/backends/http.py`) -/

/-- Python `str.capitalize()`: first character upper-cased, the rest
lower-cased. -/
def pyCapitalize (s : String) : String :=
  match s.data with
  | [] => ""
  | c :: rest => String.mk (c.toUpper :: rest.map Char.toLower)

/-- Embeds `s[:1].lower() + s[1:]`. -/
def lowerFirstLetter (s : String) : String :=
  match s.data with
  | [] => ""
  | c :: rest => String.mk (c.toLower :: rest)

/-- Embeds `lifter.utils.to_camel_case`: capitalize each
underscore-separated chunk (an empty chunk becomes an underscore), join
and lower the first letter. -/
def to_camel_case (s : String) : String :=
  lowerFirstLetter
    (String.join ((s.splitOn "_").map (fun x => if x = "" then "_" else pyCapitalize x)))

/-- An HTTP response as `parse_response` sees it: the status code and
the raw body bytes. -/
structure HttpResponse : Type where
  status_code : Nat
  content : List Nat

/-- Says when `requests.Response.raise_for_status()` raises `HTTPError`: exactly
for status codes in `[400, 600)`. -/
def raiseForStatusRaises (status : Nat) : Bool :=
  400 ≤ status ∧ status < 600

/-- Embeds `RESTStore.parse_response`: `raise_for_status` errors are
mapped to `BadQuery` for a 4xx code and `StoreError` for a 5xx code
(each carrying the stringified error), and otherwise the body is
decoded and handed to the content parser.  The byte decoding and the
format-specific parser are external collaborators and are taken as
parameters. -/
def parse_response {α : Type} (decode : List Nat → String) (parse : String → α)
    (resp : HttpResponse) : Except RemoteError α :=
  if raiseForStatusRaises resp.status_code then
    if 400 ≤ resp.status_code ∧ resp.status_code < 500 then
      .error (.badQuery (toString resp.status_code))
    else if 500 ≤ resp.status_code then
      .error (.storeError (toString resp.status_code))
    else .ok (parse (decode resp.content))
  else .ok (parse (decode resp.content))

/-- The per-model metadata the store reads (`model._meta`). -/
structure ModelMeta : Type where
  app_name : String
  name : String
  name_plural : String

/-- The configuration of a `RESTStore`: its base URL, the
`pluralize_model_name` class flag, and the library version used in the
user-agent header. -/
structure RESTStoreM : Type where
  base_url : String
  pluralize_model_name : Bool := true
  version : String

/-- A prepared request, as handed to the transport. -/
structure PreparedRequest : Type where
  method : String
  url : String
  params : List (String × List String)
  headers : List (String × String)

/-- Embeds `RESTStore.get_model_url_part`. -/
def get_model_url_part (s : RESTStoreM) (m : ModelMeta) : String :=
  let model_part := if s.pluralize_model_name then m.name_plural else m.name
  if m.app_name ≠ "" then m.app_name ++ "/" ++ model_part else model_part

/-- Embeds `RESTStore.build_query_url`. -/
def build_query_url (s : RESTStoreM) (_q : QueryM) (m : ModelMeta) : String :=
  let model_part := get_model_url_part s m
  if s.base_url.endsWith "/" then s.base_url ++ model_part
  else s.base_url ++ "/" ++ model_part

/-- Embeds `RESTStore.get_headers`: a product/version user-agent. -/
def get_headers (s : RESTStoreM) : List (String × String) :=
  [("User-Agent", "Lifter/" ++ s.version)]

/-- Embeds `RESTStore.convert_attribute_names_out`: rename every
querystring key through the outbound naming convention
(`to_camel_case`). -/
def convert_attribute_names_out (qs : List (String × List String)) :
    List (String × List String) :=
  qs.map (fun p => (to_camel_case p.1, p.2))

/-- Embeds `RESTStore.build_request`: a `GET` request at the resource
URL with the converted querystring and the user-agent header. -/
def build_request (s : RESTStoreM) (url : String) (q : QueryM) :
    Except RemoteError PreparedRequest :=
  match build_querystring q with
  | .error e => .error e
  | .ok qs =>
      .ok { method := "GET", url := url,
            params := convert_attribute_names_out qs,
            headers := get_headers s }

/-- Embeds `RESTStore.handle_select`: build the URL and the request,
send it through the transport (`env`, an external collaborator), parse
the response, and return the results (`get_results` is the identity). -/
def handle_select {Rec : Type} (s : RESTStoreM) (env : PreparedRequest → HttpResponse)
    (decode : List Nat → String) (parse : String → List Rec)
    (q : QueryM) (m : ModelMeta) : Except RemoteError (List Rec) :=
  let url := build_query_url s q m
  match build_request s url q with
  | .error e => .error e
  | .ok req =>
      match parse_response decode parse (env req) with
      | .error e => .error e
      | .ok parsed => .ok parsed

/-- Embeds `RESTStore.handle_count`: re-issue the query as a `select`
and measure the length of the returned record sequence. -/
def handle_count {Rec : Type} (s : RESTStoreM) (env : PreparedRequest → HttpResponse)
    (decode : List Nat → String) (parse : String → List Rec)
    (q : QueryM) (m : ModelMeta) : Except RemoteError Nat :=
  match handle_select s env decode parse (q.clone "select") m with
  | .error e => .error e
  | .ok records => .ok records.length

/-! ## Supporting lemmas -/

theorem cache_set_enabled {V : Type} (c : DummyCache V) (key : String) (v : V)
    (t : TimeoutArg) : (cache_set c key v t).1.enabled = c.enabled := by
  unfold cache_set dummy_set
  split <;> rfl

theorem dummy_get_enabled {V : Type} (c : DummyCache V) (key : String) :
    (dummy_get c key).1.enabled = c.enabled := by
  unfold dummy_get
  repeat' split
  all_goals rfl

theorem cache_get_enabled {V : Type} (c : DummyCache V) (key : String) (d : V)
    (r : Bool) : (cache_get c key d r).1.enabled = c.enabled := by
  unfold cache_get
  split
  · have hd := dummy_get_enabled c key
    rcases hg : dummy_get c key with ⟨c2, res⟩
    rw [hg] at hd
    cases res <;> exact hd
  · rfl

theorem runOp_enabled {V : Type} (c : DummyCache V) (o : CacheOp V) :
    (runOp c o).enabled = c.enabled := by
  cases o with
  | setOp key value timeout => exact cache_set_enabled c key value timeout
  | getOp key default reraise => exact cache_get_enabled c key default reraise
  | advanceClock t => rfl

theorem runProg_enabled {V : Type} (prog : ScopeProg V) :
    ∀ c : DummyCache V, (runProg c prog).enabled = c.enabled := by
  induction prog with
  | done => intro c; rfl
  | op o rest ih =>
      intro c
      rw [runProg, ih (runOp c o), runOp_enabled]
  | scope new_value body rest ihb ihr =>
      intro c
      rw [runProg, ihr]
      rfl

/-! ## Claims -/

/-- C10: with an empty or absent filter tree, `build_querystring`
returns the empty mapping whatever the orderings and action are:
ordering information can reach the querystring only through the branch
guarded by the presence of filters. -/
theorem claim_C10 (orderings : List String) (action : String) :
    build_querystring { filters := none, orderings := orderings, action := action } = .ok [] :=
  rfl

/-- C8: the remote backend's count handler returns exactly the length
of the record sequence produced by its select handler on the same query
re-issued with action `select`. -/
theorem claim_C8 {Rec : Type} (s : RESTStoreM) (env : PreparedRequest → HttpResponse)
    (decode : List Nat → String) (parse : String → List Rec)
    (q : QueryM) (m : ModelMeta) :
    handle_count s env decode parse q m =
      Except.map List.length (handle_select s env decode parse (q.clone "select") m) := by
  unfold handle_count
  cases handle_select s env decode parse (q.clone "select") m <;> rfl

/-- C7: a status code in `[400, 500)` makes response parsing fail with
`BadQuery`, a status code in `[500, 600)` makes it fail with
`StoreError`, and any other status code hands the decoded body to the
content parser. -/
theorem claim_C7 {α : Type} (decode : List Nat → String) (parse : String → α)
    (resp : HttpResponse) :
    (400 ≤ resp.status_code → resp.status_code < 500 →
      parse_response decode parse resp = .error (.badQuery (toString resp.status_code)))
    ∧ (500 ≤ resp.status_code → resp.status_code < 600 →
      parse_response decode parse resp = .error (.storeError (toString resp.status_code)))
    ∧ (resp.status_code < 400 ∨ 600 ≤ resp.status_code →
      parse_response decode parse resp = .ok (parse (decode resp.content))) := by
  refine ⟨?_, ?_, ?_⟩
  · intro h1 h2
    have hb : raiseForStatusRaises resp.status_code = true := by
      simp only [raiseForStatusRaises, decide_eq_true_eq]
      exact ⟨h1, by omega⟩
    unfold parse_response
    rw [if_pos hb, if_pos ⟨h1, h2⟩]
  · intro h1 h2
    have hb : raiseForStatusRaises resp.status_code = true := by
      simp only [raiseForStatusRaises, decide_eq_true_eq]
      exact ⟨by omega, h2⟩
    unfold parse_response
    rw [if_pos hb, if_neg (by omega), if_pos (by omega)]
  · intro h
    have hb : ¬ (raiseForStatusRaises resp.status_code = true) := by
      simp only [raiseForStatusRaises, decide_eq_true_eq]
      omega
    unfold parse_response
    rw [if_neg hb]

/-- C7 witness: a 404 yields `BadQuery`, a 503 yields `StoreError`, and
a 200 yields the parsed decoded body. -/
theorem claim_C7_witness :
    parse_response (fun _ => "") String.length ⟨404, []⟩
        = .error (.badQuery (toString (404 : Nat)))
    ∧ parse_response (fun _ => "") String.length ⟨503, []⟩
        = .error (.storeError (toString (503 : Nat)))
    ∧ parse_response (fun _ => "") String.length ⟨200, []⟩
        = .ok (String.length ((fun _ => "") ([] : List Nat))) :=
  ⟨(claim_C7 (fun _ => "") String.length ⟨404, []⟩).1 (by decide) (by decide),
   (claim_C7 (fun _ => "") String.length ⟨503, []⟩).2.1 (by decide) (by decide),
   (claim_C7 (fun _ => "") String.length ⟨200, []⟩).2.2 (Or.inl (by decide))⟩

/-- C9: entering an enable/disable scope sets the cache's enabled flag
to the scope's value, exiting restores the flag remembered at
construction, and every properly nested program of scopes and cache
operations leaves the flag as it was before the outermost entry. -/
theorem claim_C9 {V : Type} (c c2 : DummyCache V) (v : Bool) (prog : ScopeProg V) :
    (toggler_enter c (toggler_init c v)).enabled = v
    ∧ (toggler_exit c2 (toggler_init c v)).enabled = c.enabled
    ∧ (runProg c prog).enabled = c.enabled :=
  ⟨rfl, rfl, runProg_enabled prog c⟩

/-- A fresh enabled `DummyCache` over natural-number values with the
clock at zero. -/
def freshCache : DummyCache Nat :=
  { default_timeout := none, enabled := true, data := [], now := 0 }

/-- C3 counterexample: store `1` at clock `0` with timeout `5`, read at
clock `5`.  The elapsed time equals the timeout, which the claim says
makes the entry absent (the default `0` should come back), yet the
stored value is returned: the expiry comparison `expires_on < now` is
strict. -/
theorem claim_C3_counterexample :
    (5 : Int) - freshCache.now ≥ 5
    ∧ (cache_get { (cache_set freshCache "k" 1 (.given (some 5))).1 with now := 5 }
        "k" 0 false).2 = .ok 1
    ∧ (1 : Nat) ≠ 0 :=
  ⟨by decide, rfl, by decide⟩

/-- C3, as amended: with an enabled cache, a value stored with timeout
`T` is still returned while the elapsed time on the cache's injectable
clock is less than **or equal to** `T` (so in particular strictly less,
as the claim stated), and the supplied default is returned as soon as
the elapsed time strictly exceeds `T`. -/
theorem claim_C3 {V : Type} (c : DummyCache V) (key : String) (v default : V)
    (T t1 : Int) (henabled : c.enabled = true) :
    (t1 - c.now ≤ T →
      (cache_get { (cache_set c key v (.given (some T))).1 with now := t1 }
        key default false).2 = .ok v)
    ∧ (T < t1 - c.now →
      (cache_get { (cache_set c key v (.given (some T))).1 with now := t1 }
        key default false).2 = .ok default) := by
  have hset : (cache_set c key v (.given (some T))).1 =
      { c with data := (key, some (c.now + T), v) :: c.data.filter (fun p => p.1 ≠ key) } := by
    unfold cache_set dummy_set get_now
    rw [if_pos henabled]
    rfl
  have hf : List.find? (fun p => decide (p.1 = key))
      ((key, some (c.now + T), v) :: c.data.filter (fun p => decide (p.1 ≠ key)))
      = some (key, some (c.now + T), v) := by
    simp [List.find?]
  constructor
  · intro hle
    rw [hset]
    unfold cache_get
    rw [if_pos (by simpa using henabled)]
    unfold dummy_get get_now
    rw [hf]
    dsimp only
    rw [if_neg (by omega)]
  · intro hlt
    rw [hset]
    unfold cache_get
    rw [if_pos (by simpa using henabled)]
    unfold dummy_get get_now
    rw [hf]
    dsimp only
    rw [if_pos (by omega)]
    rfl

/-- C3 witness: at elapsed time `3 ≤ 5` the stored value comes back,
at elapsed time `7 > 5` the default comes back. -/
theorem claim_C3_witness :
    (cache_get { (cache_set freshCache "k" 1 (.given (some 5))).1 with now := 3 }
        "k" 0 false).2 = .ok 1
    ∧ (cache_get { (cache_set freshCache "k" 1 (.given (some 5))).1 with now := 7 }
        "k" 0 false).2 = .ok 0 :=
  ⟨(claim_C3 freshCache "k" 1 0 5 3 rfl).1 (by decide),
   (claim_C3 freshCache "k" 1 0 5 7 rfl).2 (by decide)⟩

/-- C2 counterexample: the empty dict is iterable and none of the
lookup steps finds the field, yet `resolve_attr` raises `MissingField`
instead of returning a ScatteredView — a mapping's missing key
(`KeyError`) aborts resolution at step 1. -/
theorem claim_C2_counterexample :
    isIterableR (.vdict .nil) = true
    ∧ keyedStep (.vdict .nil) "x" = .keyError
    ∧ instDictStep (.vdict .nil) "x" = none
    ∧ getattrStep (.vdict .nil) "x" = none
    ∧ resolve_attr (.vdict .nil) "x" = .error (.vdict .nil, "x") :=
  ⟨rfl, rfl, rfl, rfl, rfl⟩

/-- C2, as amended: `resolve_attr` tries, in order, (1) keyed mapping
lookup, where a present key wins even when its value is falsy or empty,
but where a mapping that lacks the key fails at once with
`MissingField` without trying the later steps; (2) for records on which
keyed lookup is inapplicable (`TypeError`): the record's own attribute
table, then generic attribute access; (3) if such a record is iterable
and the previous steps did not apply, a ScatteredView wrapping the
collection and the name — not a failure; (4) otherwise `MissingField`.
The ScatteredView guarantee thus holds for every iterable record on
which keyed lookup is inapplicable and the attribute steps fail —
not for mappings. -/
theorem claim_C2 (r : RVal) (name : String) :
    (∀ v, keyedStep r name = .found v → resolve_attr r name = .ok v)
    ∧ (keyedStep r name = .keyError → resolve_attr r name = .error (r, name))
    ∧ (∀ v, keyedStep r name = .typeError → instDictStep r name = some v →
        resolve_attr r name = .ok v)
    ∧ (∀ v, keyedStep r name = .typeError → instDictStep r name = none →
        getattrStep r name = some v → resolve_attr r name = .ok v)
    ∧ (keyedStep r name = .typeError → getattrStep r name = none →
        isIterableR r = true → resolve_attr r name = .ok (.scattered (relems r) name))
    ∧ (keyedStep r name = .typeError → getattrStep r name = none →
        isIterableR r = false → resolve_attr r name = .error (r, name)) := by
  cases r with
  | vdict entries =>
      cases hl : lookupEntry entries name with
      | some u =>
          refine ⟨?_, ?_, ?_, ?_, ?_, ?_⟩
          · intro v h
            simp [keyedStep, hl] at h
            subst h
            simp [resolve_attr, hl]
          · intro h
            simp [keyedStep, hl] at h
          · intro v h _
            simp [keyedStep, hl] at h
          · intro v h _ _
            simp [keyedStep, hl] at h
          · intro h _ _
            simp [keyedStep, hl] at h
          · intro h _ _
            simp [keyedStep, hl] at h
      | none =>
          refine ⟨?_, ?_, ?_, ?_, ?_, ?_⟩
          · intro v h
            simp [keyedStep, hl] at h
          · intro _
            simp [resolve_attr, hl]
          · intro v h _
            simp [keyedStep, hl] at h
          · intro v h _ _
            simp [keyedStep, hl] at h
          · intro h _ _
            simp [keyedStep, hl] at h
          · intro h _ _
            simp [keyedStep, hl] at h
  | scattered items key =>
      refine ⟨?_, ?_, ?_, ?_, ?_, ?_⟩
      · intro v h
        simp [keyedStep] at h
        subst h
        simp [resolve_attr]
      · intro h
        simp [keyedStep] at h
      · intro v h _
        simp [keyedStep] at h
      · intro v h _ _
        simp [keyedStep] at h
      · intro h _ _
        simp [keyedStep] at h
      · intro h _ _
        simp [keyedStep] at h
  | vobj inst attrs =>
      refine ⟨?_, ?_, ?_, ?_, ?_, ?_⟩
      · intro v h
        simp [keyedStep] at h
      · intro h
        simp [keyedStep] at h
      · intro v _ h2
        simp only [instDictStep] at h2
        simp [resolve_attr, h2]
      · intro v _ h2 h3
        simp only [instDictStep] at h2
        simp only [getattrStep, h2] at h3
        simp [resolve_attr, h2, h3]
      · intro _ _ h3
        simp [isIterableR] at h3
      · intro _ h2 _
        simp only [getattrStep] at h2
        cases hl : lookupEntry inst name with
        | some u => rw [hl] at h2; simp at h2
        | none =>
            rw [hl] at h2
            dsimp only at h2
            simp [resolve_attr, hl, h2]
  | vlist elems =>
      refine ⟨?_, ?_, ?_, ?_, ?_, ?_⟩
      · intro v h
        simp [keyedStep] at h
      · intro h
        simp [keyedStep] at h
      · intro v _ h2
        simp [instDictStep] at h2
      · intro v _ _ h3
        simp [getattrStep] at h3
      · intro _ _ _
        simp [resolve_attr, relems]
      · intro _ _ h3
        simp [isIterableR] at h3
  | vint n =>
      refine ⟨?_, ?_, ?_, ?_, ?_, ?_⟩
      · intro v h
        simp [keyedStep] at h
      · intro h
        simp [keyedStep] at h
      · intro v _ h2
        simp [instDictStep] at h2
      · intro v _ _ h3
        simp [getattrStep] at h3
      · intro _ _ h3
        simp [isIterableR] at h3
      · intro _ _ _
        simp [resolve_attr]
  | vstr s =>
      refine ⟨?_, ?_, ?_, ?_, ?_, ?_⟩
      · intro v h
        simp [keyedStep] at h
      · intro h
        simp [keyedStep] at h
      · intro v _ h2
        simp [instDictStep] at h2
      · intro v _ _ h3
        simp [getattrStep] at h3
      · intro _ _ h3
        simp [isIterableR] at h3
      · intro _ _ _
        simp [resolve_attr]
  | vnone =>
      refine ⟨?_, ?_, ?_, ?_, ?_, ?_⟩
      · intro v h
        simp [keyedStep] at h
      · intro h
        simp [keyedStep] at h
      · intro v _ h2
        simp [instDictStep] at h2
      · intro v _ _ h3
        simp [getattrStep] at h3
      · intro _ _ h3
        simp [isIterableR] at h3
      · intro _ _ _
        simp [resolve_attr]

/-- C2 witness: a list record, on which keyed lookup raises
`TypeError` and attribute access finds nothing, resolves to a
ScatteredView wrapping the collection and the name. -/
theorem claim_C2_witness :
    resolve_attr (.vlist .nil) "x" = .ok (.scattered (relems (.vlist .nil)) "x") :=
  (claim_C2 (.vlist .nil) "x").2.2.2.2.1 rfl rfl rfl

/-- The resolved items of a view are exactly the successful resolutions
of the wrapped elements: elements that raise `MissingField` contribute
nothing. -/
theorem rmem_resolveItems :
    ∀ (items : RList) (key : String) (v : RVal),
      rmem v (resolveItems items key) ↔ ∃ it, rmem it items ∧ resolve_attr it key = .ok v
  | .nil, key, v => by simp [resolveItems, rmem]
  | .cons head tail, key, v => by
      cases hr : resolve_attr head key with
      | ok w =>
          simp only [resolveItems, hr]
          constructor
          · intro h
            cases h with
            | inl he => exact ⟨head, Or.inl rfl, he ▸ hr⟩
            | inr ht =>
                obtain ⟨it, hit, hok⟩ := (rmem_resolveItems tail key v).1 ht
                exact ⟨it, Or.inr hit, hok⟩
          · rintro ⟨it, hit | hit, hok⟩
            · subst hit
              rw [hr] at hok
              cases hok
              exact Or.inl rfl
            · exact Or.inr ((rmem_resolveItems tail key v).2 ⟨it, hit, hok⟩)
      | error e =>
          simp only [resolveItems, hr]
          constructor
          · intro h
            obtain ⟨it, hit, hok⟩ := (rmem_resolveItems tail key v).1 h
            exact ⟨it, Or.inr hit, hok⟩
          · rintro ⟨it, hit | hit, hok⟩
            · subst hit
              rw [hr] at hok
              cases hok
            · exact (rmem_resolveItems tail key v).2 ⟨it, hit, hok⟩

/-- Membership `other in l` holds iff some member of `l` compares equal to the
scalar. -/
theorem anyEqScalar_iff :
    ∀ (l : RList) (other : ScalarV),
      anyEqScalar other l = true ↔ ∃ v, rmem v l ∧ eqToScalar other v = true
  | .nil, other => by simp [anyEqScalar, rmem]
  | .cons head tail, other => by
      rw [anyEqScalar, Bool.or_eq_true]
      constructor
      · rintro (h | h)
        · exact ⟨head, Or.inl rfl, h⟩
        · obtain ⟨v, hv, he⟩ := (anyEqScalar_iff tail other).1 h
          exact ⟨v, Or.inr hv, he⟩
      · rintro ⟨v, hv | hv, he⟩
        · subst hv
          exact Or.inl he
        · exact Or.inr ((anyEqScalar_iff tail other).2 ⟨v, hv, he⟩)

/-- C4: a ScatteredView resolves the field name against every element
of the wrapped collection — an element appears among the resolved
values exactly when its resolution succeeds, elements raising
`MissingField` being silently skipped — and its equality test against a
scalar holds iff the scalar appears, under Python equality, among the
resolved values. -/
theorem claim_C4 (items : RList) (key : String) (other : ScalarV) :
    (∀ v, rmem v (resolveItems items key) ↔
      ∃ it, rmem it items ∧ resolve_attr it key = .ok v)
    ∧ (scatteredEqScalar items key other = true ↔
      ∃ it, rmem it items ∧ ∃ v, resolve_attr it key = .ok v ∧ eqToScalar other v = true) := by
  constructor
  · intro v
    exact rmem_resolveItems items key v
  · unfold scatteredEqScalar
    rw [anyEqScalar_iff]
    constructor
    · rintro ⟨v, hv, he⟩
      obtain ⟨it, hit, hok⟩ := (rmem_resolveItems items key v).1 hv
      exact ⟨it, hit, v, hok, he⟩
    · rintro ⟨it, hit, v, hok, he⟩
      exact ⟨v, (rmem_resolveItems items key v).2 ⟨it, hit, hok⟩, he⟩

theorem resolveTest_of_nil (test : RVal → Bool) {items : RList} {key : String}
    (h : resolveItems items key = .nil) :
    resolveTest test items key = some (test (.vlist .nil)) := by
  rw [resolveTest]
  split
  · rfl
  · rename_i first rest heq
    rw [h] at heq
    exact RList.noConfusion heq

theorem resolveTest_of_cons (test : RVal → Bool) {items : RList} {key : String}
    {first : RVal} {rest : RList} (h : resolveItems items key = .cons first rest) :
    resolveTest test items key =
      (if isScattered first then anyNestedTest test (.cons first rest)
       else some (ranyB test (.cons first rest))) := by
  rw [resolveTest]
  split
  · rename_i heq
    rw [h] at heq
    exact RList.noConfusion heq
  · rename_i f r heq
    rw [h] at heq
    injection heq with h1 h2
    subst h1
    subst h2
    rfl

/-- Existential `any(test(item) for item in l)` holds iff some member satisfies the
test. -/
theorem ranyB_iff :
    ∀ (l : RList) (test : RVal → Bool),
      ranyB test l = true ↔ ∃ v, rmem v l ∧ test v = true
  | .nil, test => by simp [ranyB, rmem]
  | .cons head tail, test => by
      simp only [ranyB, Bool.or_eq_true]
      constructor
      · rintro (h | h)
        · exact ⟨head, Or.inl rfl, h⟩
        · obtain ⟨v, hv, ht⟩ := (ranyB_iff tail test).1 h
          exact ⟨v, Or.inr hv, ht⟩
      · rintro ⟨v, hv | hv, ht⟩
        · subst hv
          exact Or.inl ht
        · exact Or.inr ((ranyB_iff tail test).2 ⟨v, hv, ht⟩)

/-- When the nested fan-out completes without a crash, it answers
`true` iff some nested view's own test answers `true`. -/
theorem anyNestedTest_some :
    ∀ (l : RList) (test : RVal → Bool) (b : Bool),
      anyNestedTest test l = some b →
      (b = true ↔ ∃ i k, rmem (RVal.scattered i k) l ∧ resolveTest test i k = some true)
  | .nil, test, b => by
      intro h
      rw [anyNestedTest] at h
      cases h
      simp [rmem]
  | .cons (.scattered i k) tail, test, b => by
      intro h
      rw [anyNestedTest] at h
      cases hr : resolveTest test i k with
      | none => rw [hr] at h; exact Option.noConfusion h
      | some b1 =>
          cases ha : anyNestedTest test tail with
          | none => rw [hr, ha] at h; exact Option.noConfusion h
          | some bs =>
              rw [hr, ha] at h
              cases h
              have ih := anyNestedTest_some tail test bs ha
              constructor
              · intro hor
                rcases Bool.or_eq_true_iff.1 hor with h1 | h1
                · exact ⟨i, k, Or.inl rfl, h1 ▸ hr⟩
                · obtain ⟨i2, k2, hm, ht⟩ := ih.1 h1
                  exact ⟨i2, k2, Or.inr hm, ht⟩
              · rintro ⟨i2, k2, hm | hm, ht⟩
                · injection hm with e1 e2
                  subst e1
                  subst e2
                  rw [hr] at ht
                  cases ht
                  exact Bool.or_eq_true_iff.2 (Or.inl rfl)
                · exact Bool.or_eq_true_iff.2 (Or.inr (ih.2 ⟨i2, k2, hm, ht⟩))
  | .cons (.vint n) tail, test, b => by
      intro h
      simp [anyNestedTest] at h
  | .cons (.vstr s) tail, test, b => by
      intro h
      simp [anyNestedTest] at h
  | .cons .vnone tail, test, b => by
      intro h
      simp [anyNestedTest] at h
  | .cons (.vdict entries) tail, test, b => by
      intro h
      simp [anyNestedTest] at h
  | .cons (.vobj inst attrs) tail, test, b => by
      intro h
      simp [anyNestedTest] at h
  | .cons (.vlist elems) tail, test, b => by
      intro h
      simp [anyNestedTest] at h

/-- C1: the predicate test of a ScatteredView is existential over the
resolved values: with an empty resolved set the predicate is applied to
the empty sequence itself; when the resolved values are direct (the
first is not a view) the test holds iff some direct resolved value
satisfies it; and when the resolved values are themselves views (deeper
nesting) a completed test holds iff at least one nested view satisfies
it — never a universal match. -/
theorem claim_C1 (items : RList) (key : String) (test : RVal → Bool) :
    (resolveItems items key = .nil →
      resolveTest test items key = some (test (.vlist .nil)))
    ∧ (∀ first rest, resolveItems items key = .cons first rest →
        isScattered first = false →
        resolveTest test items key = some (ranyB test (.cons first rest))
        ∧ (ranyB test (.cons first rest) = true ↔
            ∃ v, rmem v (RList.cons first rest) ∧ test v = true))
    ∧ (∀ first rest b, resolveItems items key = .cons first rest →
        (∀ v, rmem v (RList.cons first rest) → isScattered v = true) →
        resolveTest test items key = some b →
        (b = true ↔ ∃ i k, rmem (RVal.scattered i k) (RList.cons first rest)
            ∧ resolveTest test i k = some true)) := by
  refine ⟨?_, ?_, ?_⟩
  · intro h
    exact resolveTest_of_nil test h
  · intro first rest h hns
    refine ⟨?_, ranyB_iff _ test⟩
    rw [resolveTest_of_cons test h, if_neg]
    simp [hns]
  · intro first rest b h hall hsome
    have hsc : isScattered first = true := hall first (Or.inl rfl)
    rw [resolveTest_of_cons test h, if_pos (by simp [hsc])] at hsome
    exact anyNestedTest_some _ test b hsome

/-- C1 witness: over one record `{"x": 1}` the resolved set is the
direct value `1`, and the test evaluates existentially over it. -/
theorem claim_C1_witness :
    resolveTest (fun v => match v with | .vint n => n == 1 | _ => false)
        (.cons (.vdict (.cons "x" (.vint 1) .nil)) .nil) "x"
      = some (ranyB (fun v => match v with | .vint n => n == 1 | _ => false)
          (.cons (.vint 1) .nil)) :=
  ((claim_C1 (.cons (.vdict (.cons "x" (.vint 1) .nil)) .nil) "x"
      (fun v => match v with | .vint n => n == 1 | _ => false)).2.1
    (.vint 1) .nil rfl rfl).1

/-- A node `check_support` rejects: inverted while `NOT` is
unsupported, a leaf with an unsupported lookup registry name, or a
composite with an unsupported operator. -/
def offending (st : SupportTable) (n : QueryNode) : Bool :=
  (n.invertedFlag && !(st.operators.contains "NOT")) ||
    match n with
    | .leaf _ lookup _ => !(st.lookups.contains lookup.registry_name)
    | .composite op _ _ => !(st.operators.contains op)

theorem check_support_ok {st : SupportTable} {n : QueryNode}
    (h : offending st n = false) : check_support st n = .ok () := by
  cases n with
  | leaf path lookup inv =>
      unfold offending QueryNode.invertedFlag at h
      dsimp only at h
      rw [Bool.or_eq_false_iff] at h
      obtain ⟨h1, h2⟩ := h
      have h2' : lookup.registry_name ∈ st.lookups := by simpa using h2
      rcases Bool.and_eq_false_iff.1 h1 with hi | hc
      · simp [check_support, QueryNode.invertedFlag, hi, h2']
      · have hc' : "NOT" ∈ st.operators := by simpa using hc
        simp [check_support, QueryNode.invertedFlag, hc', h2']
  | composite op subs inv =>
      unfold offending QueryNode.invertedFlag at h
      dsimp only at h
      rw [Bool.or_eq_false_iff] at h
      obtain ⟨h1, h2⟩ := h
      have h2' : op ∈ st.operators := by simpa using h2
      rcases Bool.and_eq_false_iff.1 h1 with hi | hc
      · simp [check_support, QueryNode.invertedFlag, hi, h2']
      · have hc' : "NOT" ∈ st.operators := by simpa using hc
        simp [check_support, QueryNode.invertedFlag, hc', h2']

theorem check_support_error {st : SupportTable} {n : QueryNode}
    (h : offending st n = true) :
    ∃ msg, check_support st n = .error (.unsupportedQuery msg n) := by
  cases n with
  | leaf path lookup inv =>
      unfold offending QueryNode.invertedFlag at h
      dsimp only at h
      rw [Bool.or_eq_true_iff] at h
      by_cases hcond : inv = true ∧ ¬ st.operators.contains "NOT" = true
      · refine ⟨"NOT operator not supported", ?_⟩
        simp [check_support, QueryNode.invertedFlag, hcond.1, hcond.2]
        intro hmem
        exact absurd hmem (by simpa using hcond.2)
      · have hrest : (!(st.lookups.contains lookup.registry_name)) = true := by
          rcases h with ha | hb
          · rw [Bool.and_eq_true] at ha
            exact absurd ⟨ha.1, by simpa using ha.2⟩ hcond
          · exact hb
        have hr' : lookup.registry_name ∉ st.lookups := by simpa using hrest
        refine ⟨lookup.registry_name ++ " lookup not supported", ?_⟩
        simp [check_support, QueryNode.invertedFlag, hcond, hr']
        intro hi hn
        exact absurd ⟨hi, by simpa using hn⟩ hcond
  | composite op subs inv =>
      unfold offending QueryNode.invertedFlag at h
      dsimp only at h
      rw [Bool.or_eq_true_iff] at h
      by_cases hcond : inv = true ∧ ¬ st.operators.contains "NOT" = true
      · refine ⟨"NOT operator not supported", ?_⟩
        simp [check_support, QueryNode.invertedFlag, hcond.1, hcond.2]
        intro hmem
        exact absurd hmem (by simpa using hcond.2)
      · have hrest : (!(st.operators.contains op)) = true := by
          rcases h with ha | hb
          · rw [Bool.and_eq_true] at ha
            exact absurd ⟨ha.1, by simpa using ha.2⟩ hcond
          · exact hb
        have hr' : op ∉ st.operators := by simpa using hrest
        refine ⟨op ++ " operator not supported", ?_⟩
        simp [check_support, QueryNode.invertedFlag, hcond, hr']
        intro hi hn
        exact absurd ⟨hi, by simpa using hn⟩ hcond

mutual

/-- Every translation of a node either succeeds or fails with an
`UnsupportedQuery` carrying an offending subtree of that node. -/
theorem iterate_dichotomy :
    ∀ (st : SupportTable) (n : QueryNode),
      (∃ l, iterateNode st n = .ok l)
      ∨ (∃ msg s, iterateNode st n = .error (.unsupportedQuery msg s)
          ∧ Subnode s n ∧ offending st s = true)
  | st, .leaf path lookup inv => by
      cases hoff : offending st (.leaf path lookup inv) with
      | false =>
          left
          refine ⟨[(path, lookup.reference_value)], ?_⟩
          unfold iterateNode
          rw [check_support_ok hoff]
      | true =>
          right
          obtain ⟨msg, hmsg⟩ := check_support_error hoff
          refine ⟨msg, .leaf path lookup inv, ?_, Subnode.refl _, hoff⟩
          unfold iterateNode
          rw [hmsg]
  | st, .composite op subs inv => by
      cases hoff : offending st (.composite op subs inv) with
      | false =>
          rcases iterateSubs_dichotomy st subs with ⟨l, hl⟩ | ⟨msg, s, q, herr, hq, hs, hoffs⟩
          · left
            refine ⟨l, ?_⟩
            unfold iterateNode
            rw [check_support_ok hoff, hl]
          · right
            refine ⟨msg, s, ?_, Subnode.comp hq hs, hoffs⟩
            unfold iterateNode
            rw [check_support_ok hoff, herr]
      | true =>
          right
          obtain ⟨msg, hmsg⟩ := check_support_error hoff
          refine ⟨msg, .composite op subs inv, ?_, Subnode.refl _, hoff⟩
          unfold iterateNode
          rw [hmsg]

/-- Same dichotomy for a sequence of subqueries. -/
theorem iterateSubs_dichotomy :
    ∀ (st : SupportTable) (l : QList),
      (∃ pairs, iterateSubs st l = .ok pairs)
      ∨ (∃ msg s q, iterateSubs st l = .error (.unsupportedQuery msg s)
          ∧ qmem q l ∧ Subnode s q ∧ offending st s = true)
  | st, .nil => Or.inl ⟨[], rfl⟩
  | st, .cons head tail => by
      rcases iterate_dichotomy st head with ⟨l1, h1⟩ | ⟨msg, s, herr, hs, hoff⟩
      · rcases iterateSubs_dichotomy st tail with ⟨l2, h2⟩ | ⟨msg, s, q, herr, hq, hs, hoff⟩
        · left
          refine ⟨l1 ++ l2, ?_⟩
          unfold iterateSubs
          rw [h1, h2]
        · right
          refine ⟨msg, s, q, ?_, Or.inr hq, hs, hoff⟩
          unfold iterateSubs
          rw [h1, herr]
      · right
        refine ⟨msg, s, head, ?_, Or.inl rfl, hs, hoff⟩
        unfold iterateSubs
        rw [herr]

end

mutual

/-- A successful translation certifies that no visited subtree is
offending. -/
theorem iterate_ok_not_offending :
    ∀ (st : SupportTable) (n : QueryNode) (l : List (String × String)),
      iterateNode st n = .ok l → ∀ s, Subnode s n → offending st s = false
  | st, .leaf path lookup inv, l => by
      intro h s hs
      cases hs with
      | refl =>
          by_contra hoff
          rw [Bool.not_eq_false] at hoff
          obtain ⟨msg, hmsg⟩ := check_support_error hoff
          unfold iterateNode at h
          rw [hmsg] at h
          exact Except.noConfusion h
  | st, .composite op subs inv, l => by
      intro h s hs
      unfold iterateNode at h
      cases hcs : check_support st (.composite op subs inv) with
      | error e => rw [hcs] at h; exact Except.noConfusion h
      | ok u =>
          rw [hcs] at h
          cases hs with
          | refl =>
              by_contra hoff
              rw [Bool.not_eq_false] at hoff
              obtain ⟨msg, hmsg⟩ := check_support_error hoff
              rw [hmsg] at hcs
              exact Except.noConfusion hcs
          | comp hq hsub =>
              exact iterateSubs_ok_not_offending st subs l h _ hq s hsub

/-- Same certification over a sequence of subqueries. -/
theorem iterateSubs_ok_not_offending :
    ∀ (st : SupportTable) (ql : QList) (pairs : List (String × String)),
      iterateSubs st ql = .ok pairs →
      ∀ q, qmem q ql → ∀ s, Subnode s q → offending st s = false
  | st, .nil, pairs => by
      intro _ q hq
      exact absurd hq id
  | st, .cons head tail, pairs => by
      intro h q hq s hs
      unfold iterateSubs at h
      cases h1 : iterateNode st head with
      | error e => rw [h1] at h; exact Except.noConfusion h
      | ok l1 =>
          rw [h1] at h
          cases h2 : iterateSubs st tail with
          | error e => rw [h2] at h; exact Except.noConfusion h
          | ok l2 =>
              cases hq with
              | inl he =>
                  subst he
                  exact iterate_ok_not_offending st _ l1 h1 s hs
              | inr ht =>
                  exact iterateSubs_ok_not_offending st tail l2 h2 q ht s hs

end

/-- C5: whenever the query tree contains an offending node — a leaf
with an unsupported lookup, an inverted node while `NOT` is
unsupported, or a composite with an unsupported operator — the
querystring builder fails with `UnsupportedQuery` carrying an offending
node of the tree, and no (partial) querystring mapping is produced. -/
theorem claim_C5 (st : SupportTable) (t : QueryNode)
    (h : ∃ s, Subnode s t ∧ offending st s = true) :
    ∃ msg s, get_filters_as_dict st t = .error (.unsupportedQuery msg s)
      ∧ Subnode s t ∧ offending st s = true := by
  obtain ⟨s0, hs0, hoff⟩ := h
  rcases iterate_dichotomy st t with ⟨l, hok⟩ | ⟨msg, s, herr, hsub, hoffs⟩
  · rw [iterate_ok_not_offending st t l hok s0 hs0] at hoff
    exact Bool.noConfusion hoff
  · refine ⟨msg, s, ?_, hsub, hoffs⟩
    unfold get_filters_as_dict
    rw [herr]

/-- C5 witness: a `gt` leaf is not supported by the simple builder, so
translation fails with `UnsupportedQuery`. -/
theorem claim_C5_witness :
    ∃ msg s,
      get_filters_as_dict simple_support_table
          (.leaf "a" { registry_name := "gt", reference_value := "5" } false)
        = .error (.unsupportedQuery msg s)
      ∧ Subnode s (.leaf "a" { registry_name := "gt", reference_value := "5" } false)
      ∧ offending simple_support_table s = true :=
  claim_C5 simple_support_table
    (.leaf "a" { registry_name := "gt", reference_value := "5" } false)
    ⟨.leaf "a" { registry_name := "gt", reference_value := "5" } false,
      Subnode.refl _, rfl⟩

mutual

/-- A tree the simple builder fully supports: non-inverted `AND`
composites over non-inverted `eq` leaves. -/
def wellFormedAnd : QueryNode → Bool
  | .leaf _ lookup inv => lookup.registry_name == "eq" && !inv
  | .composite op subs inv => op == "AND" && !inv && wellFormedAndL subs

/-- All subqueries are fully supported. -/
def wellFormedAndL : QList → Bool
  | .nil => true
  | .cons head tail => wellFormedAnd head && wellFormedAndL tail

end

mutual

/-- The leaves of a tree in tree order, as
`(path, operand string form)` pairs. -/
def flattenLeaves : QueryNode → List (String × String)
  | .leaf path lookup _ => [(path, lookup.reference_value)]
  | .composite _ subs _ => flattenSubs subs

/-- The leaves of a sequence of subqueries, in order. -/
def flattenSubs : QList → List (String × String)
  | .nil => []
  | .cons head tail => flattenLeaves head ++ flattenSubs tail

end

mutual

/-- On a fully supported AND tree the translation succeeds and yields
exactly the leaves in tree order. -/
theorem iterate_wf :
    ∀ (n : QueryNode), wellFormedAnd n = true →
      iterateNode simple_support_table n = .ok (flattenLeaves n)
  | .leaf path lookup inv, h => by
      rw [wellFormedAnd, Bool.and_eq_true] at h
      obtain ⟨h1, h2⟩ := h
      have hr : lookup.registry_name = "eq" := by simpa using h1
      have hi : inv = false := by simpa using h2
      have hoff : offending simple_support_table (.leaf path lookup inv) = false := by
        unfold offending QueryNode.invertedFlag
        dsimp only
        rw [hi, hr]
        rfl
      unfold iterateNode
      rw [check_support_ok hoff]
      rfl
  | .composite op subs inv, h => by
      rw [wellFormedAnd, Bool.and_eq_true, Bool.and_eq_true] at h
      obtain ⟨⟨h1, h2⟩, h3⟩ := h
      have ho : op = "AND" := by simpa using h1
      have hi : inv = false := by simpa using h2
      have hoff : offending simple_support_table (.composite op subs inv) = false := by
        unfold offending QueryNode.invertedFlag
        dsimp only
        rw [hi, ho]
        rfl
      unfold iterateNode
      rw [check_support_ok hoff, iterateSubs_wf subs h3]
      rfl

/-- Same over a sequence of fully supported subqueries. -/
theorem iterateSubs_wf :
    ∀ (l : QList), wellFormedAndL l = true →
      iterateSubs simple_support_table l = .ok (flattenSubs l)
  | .nil, _ => rfl
  | .cons head tail, h => by
      rw [wellFormedAndL, Bool.and_eq_true] at h
      obtain ⟨h1, h2⟩ := h
      unfold iterateSubs
      rw [iterate_wf head h1, iterateSubs_wf tail h2]
      rfl

end

/-- The operand forms of the pairs on a given path, in order. -/
def pairsValues (pairs : List (String × String)) (k : String) : List String :=
  (pairs.filter (fun p => p.1 = k)).map Prod.snd

theorem dictGet_map_ne (k1 v : String) :
    ∀ (d : List (String × List String)) (k : String), k ≠ k1 →
    dictGet (d.map (fun p => if p.1 = k1 then (p.1, p.2 ++ [v]) else p)) k = dictGet d k
  | [], k, hne => rfl
  | (hk, hv) :: tail, k, hne => by
      simp only [List.map_cons]
      by_cases hh : hk = k1
      · show dictGet ((if hk = k1 then (hk, hv ++ [v]) else (hk, hv)) :: _) k = _
        rw [if_pos hh]
        simp only [dictGet]
        have hhk : ¬ (hk = k) := fun e => hne (e.symm.trans hh)
        rw [if_neg hhk, if_neg hhk]
        exact dictGet_map_ne k1 v tail k hne
      · show dictGet ((if hk = k1 then (hk, hv ++ [v]) else (hk, hv)) :: _) k = _
        rw [if_neg hh]
        simp only [dictGet]
        by_cases hhk : hk = k
        · rw [if_pos hhk, if_pos hhk]
        · rw [if_neg hhk, if_neg hhk]
          exact dictGet_map_ne k1 v tail k hne

theorem dictGet_map_eq (k1 v : String) :
    ∀ (d : List (String × List String)), d.any (fun p => p.1 = k1) = true →
    dictGet (d.map (fun p => if p.1 = k1 then (p.1, p.2 ++ [v]) else p)) k1
      = dictGet d k1 ++ [v]
  | [], h => by cases h
  | (hk, hv) :: tail, hany => by
      simp only [List.map_cons]
      by_cases hh : hk = k1
      · show dictGet ((if hk = k1 then (hk, hv ++ [v]) else (hk, hv)) :: _) k1 = _
        rw [if_pos hh]
        simp only [dictGet]
        rw [if_pos hh, if_pos hh]
      · show dictGet ((if hk = k1 then (hk, hv ++ [v]) else (hk, hv)) :: _) k1 = _
        rw [if_neg hh]
        simp only [dictGet]
        rw [if_neg hh, if_neg hh]
        simp only [List.any_cons, Bool.or_eq_true] at hany
        rcases hany with h1 | h1
        · rw [decide_eq_true_eq] at h1
          exact absurd h1 hh
        · exact dictGet_map_eq k1 v tail h1

theorem dictGet_append_single (k1 v : String) :
    ∀ (d : List (String × List String)), d.any (fun p => p.1 = k1) = false →
    ∀ k, dictGet (d ++ [(k1, [v])]) k
      = if k = k1 then dictGet d k ++ [v] else dictGet d k
  | [], _, k => by
      by_cases hk : k = k1
      · subst hk
        simp [dictGet]
      · simp only [List.nil_append, dictGet]
        rw [if_neg (fun e => hk e.symm), if_neg hk]
  | (hk, hv) :: tail, hany, k => by
      simp only [List.any_cons, Bool.or_eq_false_iff] at hany
      obtain ⟨h1, h2⟩ := hany
      rw [decide_eq_false_iff_not] at h1
      simp only [List.cons_append, dictGet]
      by_cases hhk : hk = k
      · rw [if_pos hhk, if_pos hhk]
        have hk1 : ¬ (k = k1) := fun e => h1 (hhk.trans e)
        rw [if_neg hk1]
      · rw [if_neg hhk, if_neg hhk]
        exact dictGet_append_single k1 v tail h2 k

/-- One `setdefault`/`append` step moves one operand onto its path's
list, leaving every other path untouched. -/
theorem dictGet_addPair (d : List (String × List String)) (k1 v k : String) :
    dictGet (addPair d (k1, v)) k
      = if k = k1 then dictGet d k ++ [v] else dictGet d k := by
  unfold addPair
  by_cases hany : d.any (fun p => p.1 = k1) = true
  · rw [if_pos]
    · by_cases hk : k = k1
      · subst hk
        rw [if_pos rfl]
        exact dictGet_map_eq k v d hany
      · rw [if_neg hk]
        exact dictGet_map_ne k1 v d k hk
    · simpa using hany
  · rw [if_neg]
    · have hany' : d.any (fun p => p.1 = k1) = false := by
        rw [Bool.not_eq_true] at hany
        exact hany
      exact dictGet_append_single k1 v d hany' k
    · simpa using hany

/-- Folding the yielded pairs accumulates, per path, the operand forms
in order. -/
theorem dictGet_foldl :
    ∀ (pairs : List (String × String)) (d : List (String × List String)) (k : String),
      dictGet (pairs.foldl addPair d) k = dictGet d k ++ pairsValues pairs k
  | [], d, k => by simp [pairsValues, List.foldl]
  | (k1, v) :: rest, d, k => by
      rw [List.foldl_cons, dictGet_foldl rest (addPair d (k1, v)) k, dictGet_addPair]
      unfold pairsValues
      by_cases hk : k = k1
      · subst hk
        rw [if_pos rfl]
        simp [List.filter, List.append_assoc]
      · rw [if_neg hk]
        have : ¬ (k1 = k) := fun e => hk e.symm
        simp [List.filter, this]

/-- C6: on a fully supported AND tree of leaves the builder produces a
mapping that binds each field path to the list of the operand forms of
every leaf on that path, in tree order — leaves sharing a path
accumulate into one multi-valued entry instead of overwriting. -/
theorem claim_C6 (t : QueryNode) (h : wellFormedAnd t = true) :
    ∃ d, get_filters_as_dict simple_support_table t = .ok d
      ∧ ∀ k, dictGet d k = pairsValues (flattenLeaves t) k := by
  refine ⟨(flattenLeaves t).foldl addPair [], ?_, ?_⟩
  · unfold get_filters_as_dict
    rw [iterate_wf t h]
  · intro k
    rw [dictGet_foldl (flattenLeaves t) [] k]
    rfl

/-- C6 witness: two `eq` leaves on the same path `name` under `AND`
accumulate both operands, in tree order, under the one key `name`. -/
theorem claim_C6_witness :
    ∃ d, get_filters_as_dict simple_support_table
        (.composite "AND"
          (.cons (.leaf "name" { registry_name := "eq", reference_value := "a" } false)
            (.cons (.leaf "name" { registry_name := "eq", reference_value := "b" } false)
              .nil))
          false) = .ok d
      ∧ ∀ k, dictGet d k = pairsValues
          (flattenLeaves (.composite "AND"
            (.cons (.leaf "name" { registry_name := "eq", reference_value := "a" } false)
              (.cons (.leaf "name" { registry_name := "eq", reference_value := "b" } false)
                .nil))
            false)) k :=
  claim_C6 _ rfl

end Lifter
